import Mathlib

set_option maxRecDepth 4000

/-!
Verification of the TokenGate gateway's request/response normalization
pipeline and SSE stream rewriter, embedded from the TypeScript sources
(`src/routes/anthropic.ts`, `src/utils/response-transforms.ts`,
`src/utils/auth.ts`, `src/utils/http.ts`, and the reference implementation
`enrichSseChunk` in `tests/plugins/metrics.test.ts`).

JSON values are modelled by the inductive `JsonVal`.  Numeric literals are
modelled as integers (`Int`): every numeric field the gateway inspects or
writes (`index`, `input_tokens`, `output_tokens`) is an integer, so
fractional and exponent literals are outside the model (our `jsonParse`
rejects them, treating such payloads as unparseable).  JavaScript string
semantics (UTF-16) and Lean string semantics (Unicode scalar values) agree
on all characters the code manipulates.
-/

/-- A JSON value as produced by `JSON.parse`.  Objects keep their fields in
insertion order, mirroring JavaScript objects. -/
inductive JsonVal where
  | null : JsonVal
  | bool (b : Bool) : JsonVal
  | num (n : Int) : JsonVal
  | str (s : String) : JsonVal
  | arr (elems : List JsonVal) : JsonVal
  | obj (fields : List (String × JsonVal)) : JsonVal

/-- Field lookup in an object's field list (first binding wins, as in a
JavaScript object, whose keys are unique). -/
def lookupField : List (String × JsonVal) → String → Option JsonVal
  | [], _ => none
  | (k, v) :: rest, key => if k = key then some v else lookupField rest key

/-- JavaScript property access `v.k`: `none` models `undefined`.  Reading a
named property of a primitive or an array yields `undefined`. -/
def jsGetProp (v : JsonVal) (k : String) : Option JsonVal :=
  match v with
  | .obj fs => lookupField fs k
  | _ => none

/-- JavaScript optional chaining `a?.k` applied to the result of a previous
property access (where `none` is `undefined` or the base was `null`). -/
def jsGetPropOpt (v : Option JsonVal) (k : String) : Option JsonVal :=
  match v with
  | some x => jsGetProp x k
  | none => none

/-- JavaScript truthiness of a JSON value. -/
def truthy : JsonVal → Bool
  | .null => false
  | .bool b => b
  | .num n => n != 0
  | .str s => s != ""
  | .arr _ => true
  | .obj _ => true

/-- Truthiness of a possibly-`undefined` value. -/
def truthyOpt : Option JsonVal → Bool
  | some v => truthy v
  | none => false

/-- `b.k === "s"` for a string literal `s`. -/
def propIsStr (v : JsonVal) (k : String) (s : String) : Bool :=
  match jsGetProp v k with
  | some (.str t) => t = s
  | _ => false

/-- JavaScript property write `o.k = v` on an object literal / spread
result: an existing key is updated in place (JavaScript keeps the original
insertion position), a new key is appended. -/
def insertField (fs : List (String × JsonVal)) (k : String) (v : JsonVal) :
    List (String × JsonVal) :=
  if fs.any (fun p => p.1 = k) then
    fs.map (fun p => if p.1 = k then (k, v) else p)
  else
    fs ++ [(k, v)]

/-- `o.k = v` (or the object literal entry `{...o, k: v}`) on a JSON value;
assignment to a non-object is modelled as the identity (it is never reached
on an observable path in the embedded code). -/
def objSet (o : JsonVal) (k : String) (v : JsonVal) : JsonVal :=
  match o with
  | .obj fs => .obj (insertField fs k v)
  | other => other

/-- SameValueZero equality, as used by JavaScript `Set` membership.
Objects and arrays compare by reference; two values obtained from distinct
`JSON.parse` calls are never reference-equal, so they compare unequal. -/
def svz : JsonVal → JsonVal → Bool
  | .null, .null => true
  | .bool a, .bool b => a = b
  | .num a, .num b => a = b
  | .str a, .str b => a = b
  | _, _ => false

/-- SameValueZero on possibly-`undefined` values (`undefined === undefined`
holds). -/
def optSvz : Option JsonVal → Option JsonVal → Bool
  | none, none => true
  | some a, some b => svz a b
  | _, _ => false

/-- The per-stream `emptyBlockIndices : Set<number>` state.  The code adds
`data.index`, a parsed JSON value that may be absent (`none` models
`undefined`). -/
abbrev IndexSet := List (Option JsonVal)

/-- `set.has(v)` under SameValueZero. -/
def setHas (st : IndexSet) (v : Option JsonVal) : Bool :=
  st.any (fun w => optSvz w v)

/-- `set.add(v)`: no-op when an equal element is already present. -/
def setAdd (st : IndexSet) (v : Option JsonVal) : IndexSet :=
  if setHas st v then st else st ++ [v]

/-! ### A JSON parser modelling `JSON.parse`

The parser works over `List Char` and is total via a fuel argument (the
fuel only bounds nesting through recursive values; one unit is consumed per
recursive step, so `length + 1` always suffices). -/

/-- JSON insignificant whitespace. -/
def isWsChar (c : Char) : Bool :=
  c = ' ' || c = '\t' || c = '\n' || c = '\r'

/-- Skip insignificant whitespace. -/
def skipWs : List Char → List Char
  | [] => []
  | c :: cs => if isWsChar c then skipWs cs else c :: cs

/-- Value of a hexadecimal digit. -/
def hexVal (c : Char) : Option Nat :=
  if '0' ≤ c ∧ c ≤ '9' then some (c.toNat - 48)
  else if 'a' ≤ c ∧ c ≤ 'f' then some (c.toNat - 87)
  else if 'A' ≤ c ∧ c ≤ 'F' then some (c.toNat - 55)
  else none

/-- The single-character JSON escapes. -/
def simpleEscape (c : Char) : Option Char :=
  if c = '"' then some '"'
  else if c = '\\' then some '\\'
  else if c = '/' then some '/'
  else if c = 'n' then some '\n'
  else if c = 't' then some '\t'
  else if c = 'r' then some '\r'
  else if c = 'b' then some '\x08'
  else if c = 'f' then some '\x0c'
  else none

/-- Parse the body of a JSON string (after the opening quote); returns the
decoded characters and the input after the closing quote.  Lone surrogate
`\u` escapes are outside the model. -/
def parseStringBody : List Char → Option (List Char × List Char)
  | [] => none
  | c :: cs =>
    if c = '"' then some ([], cs)
    else if c = '\\' then
      match cs with
      | [] => none
      | e :: cs2 =>
        match simpleEscape e with
        | some ch => (parseStringBody cs2).map (fun p => (ch :: p.1, p.2))
        | none =>
          if e = 'u' then
            match cs2 with
            | h1 :: h2 :: h3 :: h4 :: cs3 =>
              match hexVal h1, hexVal h2, hexVal h3, hexVal h4 with
              | some a, some b, some c3, some d =>
                let code := ((a * 16 + b) * 16 + c3) * 16 + d
                if code < 0xd800 ∨ 0xe000 ≤ code then
                  (parseStringBody cs3).map (fun p => (Char.ofNat code :: p.1, p.2))
                else none
              | _, _, _, _ => none
            | _ => none
          else none
    else if c.toNat < 32 then none
    else (parseStringBody cs).map (fun p => (c :: p.1, p.2))

/-- Greedily consume decimal digits, accumulating their value. -/
def takeDigits : List Char → Nat → Nat × List Char
  | [], acc => (acc, [])
  | c :: cs, acc =>
    if c.isDigit then takeDigits cs (acc * 10 + (c.toNat - 48))
    else (acc, c :: cs)

/-- True when the upcoming character would extend the literal into a
fraction or exponent (outside the integer model). -/
def startsFrac : List Char → Bool
  | c :: _ => c = '.' || c = 'e' || c = 'E'
  | [] => false

/-- Parse a JSON natural-number literal (no leading zeros). -/
def parseNatLit : List Char → Option (Nat × List Char)
  | [] => none
  | '0' :: rest =>
    if (match rest with | c :: _ => c.isDigit | [] => false) then none
    else if startsFrac rest then none
    else some (0, rest)
  | c :: rest =>
    if c.isDigit then
      let p := takeDigits rest (c.toNat - 48)
      if startsFrac p.2 then none else some p
    else none

/-- Parse a JSON integer literal. -/
def parseIntLit : List Char → Option (Int × List Char)
  | '-' :: rest => (parseNatLit rest).map (fun p => (-(p.1 : Int), p.2))
  | cs => (parseNatLit cs).map (fun p => ((p.1 : Int), p.2))

mutual

/-- Parse one JSON value. -/
def parseV : Nat → List Char → Option (JsonVal × List Char)
  | 0, _ => none
  | f + 1, cs =>
    match skipWs cs with
    | '\x7b' :: rest =>
      (match skipWs rest with
       | '\x7d' :: rest2 => some (.obj [], rest2)
       | rest2 => parseMembers f rest2 [])
    | '[' :: rest =>
      (match skipWs rest with
       | ']' :: rest2 => some (.arr [], rest2)
       | rest2 => parseElems f rest2 [])
    | '"' :: rest => (parseStringBody rest).map (fun p => (.str (String.mk p.1), p.2))
    | 't' :: 'r' :: 'u' :: 'e' :: rest => some (.bool true, rest)
    | 'f' :: 'a' :: 'l' :: 's' :: 'e' :: rest => some (.bool false, rest)
    | 'n' :: 'u' :: 'l' :: 'l' :: rest => some (.null, rest)
    | cs2 => (parseIntLit cs2).map (fun p => (.num p.1, p.2))

/-- Parse the members of a JSON object (after `{`, at least one member).
Duplicate keys follow `JSON.parse`: last value wins, first position kept. -/
def parseMembers : Nat → List Char → List (String × JsonVal) →
    Option (JsonVal × List Char)
  | 0, _, _ => none
  | f + 1, cs, acc =>
    match skipWs cs with
    | '"' :: rest =>
      (match parseStringBody rest with
       | none => none
       | some (keyChars, rest2) =>
         match skipWs rest2 with
         | ':' :: rest3 =>
           (match parseV f rest3 with
            | none => none
            | some (v, rest4) =>
              let acc2 := insertField acc (String.mk keyChars) v
              match skipWs rest4 with
              | ',' :: rest5 => parseMembers f rest5 acc2
              | '\x7d' :: rest5 => some (.obj acc2, rest5)
              | _ => none)
         | _ => none)
    | _ => none

/-- Parse the elements of a JSON array (after `[`, at least one element). -/
def parseElems : Nat → List Char → List JsonVal → Option (JsonVal × List Char)
  | 0, _, _ => none
  | f + 1, cs, acc =>
    match parseV f cs with
    | none => none
    | some (v, rest) =>
      match skipWs rest with
      | ',' :: rest2 => parseElems f rest2 (acc ++ [v])
      | ']' :: rest2 => some (.arr (acc ++ [v]), rest2)
      | _ => none

end

/-- `JSON.parse(s)`: `none` models a thrown `SyntaxError` (the call sites
wrap the parse in `try`/`catch`). -/
def jsonParse (s : String) : Option JsonVal :=
  match parseV (s.data.length + 1) s.data with
  | some (v, rest) => if skipWs rest = [] then some v else none
  | none => none

/-! ### A JSON serializer modelling `JSON.stringify`

Fuel-based so that it is structurally recursive (and hence reduces in the
kernel); one unit of fuel is consumed per nesting level, so any fuel at
least the `sizeOf` of the value suffices. -/

/-- One character of the hexadecimal alphabet. -/
def hexDigit (n : Nat) : Char :=
  "0123456789abcdef".data.getD n '0'

/-- How `JSON.stringify` escapes a single character inside a string. -/
def escapeChar (c : Char) : List Char :=
  if c = '"' then ['\\', '"']
  else if c = '\\' then ['\\', '\\']
  else if c = '\n' then ['\\', 'n']
  else if c = '\r' then ['\\', 'r']
  else if c = '\t' then ['\\', 't']
  else if c = '\x08' then ['\\', 'b']
  else if c = '\x0c' then ['\\', 'f']
  else if c.toNat < 32 then ['\\', 'u', '0', '0', hexDigit (c.toNat / 16), hexDigit (c.toNat % 16)]
  else [c]

/-- `JSON.stringify` of a string: quoted and escaped. -/
def quoteJson (s : String) : String :=
  String.mk ('"' :: (s.data.map escapeChar).flatten ++ ['"'])

mutual

/-- `JSON.stringify(v)` (compact output: no spaces, object fields in
insertion order). -/
def jsonStringify : JsonVal → String
  | .null => "null"
  | .bool b => cond b "true" "false"
  | .num n => toString n
  | .str s => quoteJson s
  | .arr xs => "[" ++ stringifyElems xs ++ "]"
  | .obj fs => "\x7b" ++ stringifyFields fs ++ "\x7d"

/-- Serialize array elements, comma-separated. -/
def stringifyElems : List JsonVal → String
  | [] => ""
  | [x] => jsonStringify x
  | x :: xs => jsonStringify x ++ "," ++ stringifyElems xs

/-- Serialize object fields, comma-separated. -/
def stringifyFields : List (String × JsonVal) → String
  | [] => ""
  | [(k, v)] => quoteJson k ++ ":" ++ jsonStringify v
  | (k, v) :: fs => quoteJson k ++ ":" ++ jsonStringify v ++ "," ++ stringifyFields fs

end

/-! ### String primitives used by the SSE rewriter

The TypeScript code uses `chunk.split('\n')`, `line.startsWith(p)`,
`line.slice(6)` and `outputLines.join('\n')`.  They are modelled over the
character list underlying a `String` so that they compute in the kernel
and admit simple structural lemmas. -/

/-- `split('\n')` on the underlying characters. -/
def splitNl : List Char → List (List Char)
  | [] => [[]]
  | c :: cs =>
    if c = '\n' then [] :: splitNl cs
    else
      match splitNl cs with
      | l :: ls => (c :: l) :: ls
      | [] => [[c]]

/-- JavaScript `chunk.split('\n')`. -/
def splitLines (s : String) : List String :=
  (splitNl s.data).map String.mk

/-- JavaScript `s.startsWith(pre)`. -/
def startsWithS (s pre : String) : Bool :=
  pre.data.isPrefixOf s.data

/-- JavaScript `s.slice(n)` (all characters involved are ASCII, so UTF-16
units and characters coincide). -/
def dropS (s : String) (n : Nat) : String :=
  String.mk (s.data.drop n)

/-- JavaScript `lines.join('\n')`. -/
def joinNl : List String → String
  | [] => ""
  | [x] => x
  | x :: xs => x ++ "\n" ++ joinNl xs

/-! ### The SSE stream filter (`filterSseChunk`, src/routes/anthropic.ts) -/

/-- The parsed-data dispatch inside `filterSseChunk`'s loop
(anthropic.ts lines 179-198): decides whether the `data:` line is kept and
returns the updated `emptyBlockIndices` set.  The two suppression branches
fall through to the keep branch exactly as the nested `if`s in the source
do. -/
def filterDataValue (data : JsonVal) (st : IndexSet) : Bool × IndexSet :=
  if propIsStr data "type" "content_block_start"
      && (match jsGetPropOpt (jsGetProp data "content_block") "type" with
          | some (.str t) => t = "text"
          | _ => false)
      && (match jsGetPropOpt (jsGetProp data "content_block") "text" with
          | some (.str t) => t = ""
          | _ => false) then
    (false, setAdd st (jsGetProp data "index"))
  else if (jsGetProp data "index").isSome
      && setHas st (jsGetProp data "index")
      && (propIsStr data "type" "content_block_delta"
          || propIsStr data "type" "content_block_stop") then
    (false, st)
  else
    (true, st)

/-- The pending `event:` line, flushed before a kept line (`outputLines.push`). -/
def pendingOut : Option String → List String
  | some p => [p]
  | none => []

/-- The line loop of `filterSseChunk` (anthropic.ts lines 151-219),
with the mutable `outputLines` / `pendingEventLine` / `emptyBlockIndices`
state passed explicitly.  The trailing flush of a still-pending `event:`
line (lines 217-219) is the `[]` case. -/
def processLines : List String → IndexSet → Option String → List String →
    List String × IndexSet
  | [], st, pending, out => (out ++ pendingOut pending, st)
  | line :: rest, st, pending, out =>
    if startsWithS line "event: " then
      processLines rest st (some line) out
    else if !startsWithS line "data: " then
      processLines rest st none (out ++ pendingOut pending ++ [line])
    else
      let dataStr := dropS line 6
      if dataStr = "[DONE]" then
        processLines rest st none (out ++ pendingOut pending ++ [line])
      else
        match jsonParse dataStr with
        | some data =>
          let r := filterDataValue data st
          if r.1 then processLines rest r.2 none (out ++ pendingOut pending ++ [line])
          else processLines rest r.2 none out
        | none =>
          processLines rest st none (out ++ pendingOut pending ++ [line])

/-- `filterSseChunk(chunk, emptyBlockIndices)`: filters one SSE chunk,
returning the rewritten chunk and the updated shared index set. -/
def filterSseChunk (chunk : String) (st : IndexSet) : String × IndexSet :=
  let r := processLines (splitLines chunk) st none []
  (joinNl r.1, r.2)

/-- Chunk-wise application of `filterSseChunk` over a stream's chunk
sequence with the single shared `emptyBlockIndices` set (the claimed
client-facing behaviour of the streaming path). -/
def filterSseStream : List String → IndexSet → List String
  | [], _ => []
  | c :: cs, st =>
    let r := filterSseChunk c st
    r.1 :: filterSseStream cs r.2

/-! ### The enriching SSE rewriter (`enrichSseChunk`,
tests/plugins/metrics.test.ts)

This is the repository's reference implementation of the metadata-backfill
variant of the rewriter; it extends `filterSseChunk`'s dispatch with
`message_start` / `message_delta` handling and re-serializes the modified
payload. -/

/-- `v || d` on the result of a property access (JavaScript "or default":
the left value is returned when truthy). -/
def jsOr (v : Option JsonVal) (d : JsonVal) : JsonVal :=
  match v with
  | some x => if truthy x then x else d
  | none => d

/-- `v ?? null` (nullish coalescing: only `undefined`/`null` fall back). -/
def jsNullish (v : Option JsonVal) : JsonVal :=
  match v with
  | some .null => .null
  | some x => x
  | none => .null

/-- JavaScript object spread `{...v}`: objects contribute their fields,
arrays and strings contribute index-keyed entries, primitives nothing. -/
def idxFields : Nat → List JsonVal → List (String × JsonVal)
  | _, [] => []
  | i, x :: xs => (toString i, x) :: idxFields (i + 1) xs

/-- Fields contributed by spreading a value into an object literal. -/
def jsSpreadFields (v : JsonVal) : List (String × JsonVal) :=
  match v with
  | .obj fs => fs
  | .arr xs => idxFields 0 xs
  | .str s => idxFields 0 (s.data.map (fun c => .str (String.mk [c])))
  | _ => []

/-- The object literal built for `message_start` (metrics.test.ts lines
315-321): `{...m, type: m.type || 'message', role: m.role || 'assistant',
stop_reason: m.stop_reason ?? null, stop_sequence: m.stop_sequence ?? null}`. -/
def enrichMessage (m : JsonVal) : JsonVal :=
  let fs := jsSpreadFields m
  let fs1 := insertField fs "type" (jsOr (jsGetProp m "type") (.str "message"))
  let fs2 := insertField fs1 "role" (jsOr (jsGetProp m "role") (.str "assistant"))
  let fs3 := insertField fs2 "stop_reason" (jsNullish (jsGetProp m "stop_reason"))
  let fs4 := insertField fs3 "stop_sequence" (jsNullish (jsGetProp m "stop_sequence"))
  .obj fs4

/-- Strict-mode property assignment `target.k = v` where `target` may be a
primitive: `none` models the thrown `TypeError` (caught by the enclosing
`try`), an array is unchanged observably (expando properties are not
serialized), an object is updated. -/
def jsSetProp (target : JsonVal) (k : String) (v : JsonVal) : Option JsonVal :=
  match target with
  | .obj fs => some (.obj (insertField fs k v))
  | .arr xs => some (.arr xs)
  | _ => none

/-- Outcome of the data-line dispatch of `enrichSseChunk`: keep the
original line, drop the event, or replace the line with a re-serialized
payload. -/
inductive SseAction where
  | keep : SseAction
  | drop : SseAction
  | replace (line : String) : SseAction

/-- The parsed-data dispatch of `enrichSseChunk` (metrics.test.ts lines
312-356): `message_start` enrichment and token injection, `message_delta`
token injection, then the same empty-text-block suppression as
`filterSseChunk`.  A `TypeError` thrown by the strict-mode assignment to a
primitive `usage` is caught by the enclosing `try`, which passes the
original line through (`SseAction.keep`). -/
def enrichDataValue (data : JsonVal) (tokens : Option Int) (st : IndexSet) :
    SseAction × IndexSet :=
  if propIsStr data "type" "message_start" && truthyOpt (jsGetProp data "message") then
    match jsGetProp data "message" with
    | some m =>
      let nm := enrichMessage m
      (match tokens, jsGetProp nm "usage" with
       | some t, some u =>
         if truthy u then
           match jsSetProp u "input_tokens" (.num t) with
           | some u2 =>
             (.replace ("data: " ++ jsonStringify (objSet data "message" (objSet nm "usage" u2))), st)
           | none => (.keep, st)
         else (.replace ("data: " ++ jsonStringify (objSet data "message" nm)), st)
       | _, _ => (.replace ("data: " ++ jsonStringify (objSet data "message" nm)), st))
    | none => (.keep, st)
  else if propIsStr data "type" "message_delta" && truthyOpt (jsGetProp data "usage")
      && tokens.isSome then
    match tokens, jsGetProp data "usage" with
    | some t, some u =>
      (match jsSetProp u "input_tokens" (.num t) with
       | some u2 => (.replace ("data: " ++ jsonStringify (objSet data "usage" u2)), st)
       | none => (.keep, st))
    | _, _ => (.keep, st)
  else if propIsStr data "type" "content_block_start"
      && (match jsGetPropOpt (jsGetProp data "content_block") "type" with
          | some (.str t) => t = "text"
          | _ => false)
      && (match jsGetPropOpt (jsGetProp data "content_block") "text" with
          | some (.str t) => t = ""
          | _ => false) then
    (.drop, setAdd st (jsGetProp data "index"))
  else if (jsGetProp data "index").isSome
      && setHas st (jsGetProp data "index")
      && (propIsStr data "type" "content_block_delta"
          || propIsStr data "type" "content_block_stop") then
    (.drop, st)
  else
    (.keep, st)

/-- The line loop of `enrichSseChunk` (metrics.test.ts lines 282-376). -/
def enrichLines : List String → Option Int → IndexSet → Option String →
    List String → List String × IndexSet
  | [], _, st, pending, out => (out ++ pendingOut pending, st)
  | line :: rest, tokens, st, pending, out =>
    if startsWithS line "event: " then
      enrichLines rest tokens st (some line) out
    else if !startsWithS line "data: " then
      enrichLines rest tokens st none (out ++ pendingOut pending ++ [line])
    else
      let dataStr := dropS line 6
      if dataStr = "[DONE]" then
        enrichLines rest tokens st none (out ++ pendingOut pending ++ [line])
      else
        match jsonParse dataStr with
        | some data =>
          (match enrichDataValue data tokens st with
           | (.keep, st2) => enrichLines rest tokens st2 none (out ++ pendingOut pending ++ [line])
           | (.replace l2, st2) => enrichLines rest tokens st2 none (out ++ pendingOut pending ++ [l2])
           | (.drop, st2) => enrichLines rest tokens st2 none out)
        | none =>
          enrichLines rest tokens st none (out ++ pendingOut pending ++ [line])

/-- `enrichSseChunk(chunk, calculatedInputTokens, emptyBlockIndices)`. -/
def enrichSseChunk (chunk : String) (tokens : Option Int) (st : IndexSet) :
    String × IndexSet :=
  let r := enrichLines (splitLines chunk) tokens st none []
  (joinNl r.1, r.2)

/-! ### Response postprocessing (`filterEmptyTextBlocks`,
src/utils/response-transforms.ts) -/

/-- The filter predicate of `filterEmptyTextBlocks` (response-transforms.ts
lines 40-46): keep every non-`text` block; keep a `text` block iff its
`text` is not the empty string (a missing or non-string `text` compares
unequal to `''` and is kept). -/
def keepBlock (block : JsonVal) : Bool :=
  if propIsStr block "type" "text" then
    match jsGetProp block "text" with
    | some (.str t) => t ≠ ""
    | _ => true
  else true

/-- `filterEmptyTextBlocks(response)` (response-transforms.ts lines 35-55):
falsy or non-array `content` passes through; otherwise empty-text blocks
are filtered out unless that would empty a non-empty block list, in which
case the original response is returned. -/
def filterEmptyTextBlocks (response : JsonVal) : JsonVal :=
  match jsGetProp response "content" with
  | some (.arr blocks) =>
    let filteredContent := blocks.filter keepBlock
    if filteredContent.length = 0 ∧ blocks.length > 0 then response
    else objSet response "content" (.arr filteredContent)
  | _ => response

/-- A content block that is a `text` block with empty text — the spec's
description of what the response pipeline removes ("content blocks with
type \"text\" and text equal to the empty string"); stated independently of
the source's `keepBlock` predicate for the refinement proof. -/
def isEmptyTextBlock (block : JsonVal) : Bool :=
  propIsStr block "type" "text" &&
    (match jsGetProp block "text" with
     | some (.str t) => t = ""
     | _ => false)

/-! ### Request preprocessing (`normalizeToolIds`, `fixTrailingAssistant`,
`preprocessRequest`, src/routes/anthropic.ts lines 26-66) -/

/-- An Anthropic request: the `messages` array (each message a JSON value)
plus all remaining top-level fields, which the pipeline spreads through
unchanged. -/
structure AnthropicRequest where
  messages : List JsonVal
  extra : List (String × JsonVal)

/-- The per-block map inside `normalizeToolIds` (anthropic.ts lines 31-39):
copy a truthy `tool_use_id` of a `tool_result` block into `id`. -/
def normBlock (block : JsonVal) : JsonVal :=
  if propIsStr block "type" "tool_result" then
    match jsGetProp block "tool_use_id" with
    | some toolUseId => if truthy toolUseId then objSet block "id" toolUseId else block
    | none => block
  else block

/-- The per-message map inside `normalizeToolIds` (anthropic.ts lines
27-41): string content and non-array content pass through; array content
has `normBlock` mapped over it. -/
def normMsg (msg : JsonVal) : JsonVal :=
  match jsGetProp msg "content" with
  | some (.str _) => msg
  | some (.arr blocks) => objSet msg "content" (.arr (blocks.map normBlock))
  | _ => msg

/-- `normalizeToolIds(req)`. -/
def normalizeToolIds (req : AnthropicRequest) : AnthropicRequest :=
  { req with messages := req.messages.map normMsg }

/-- The synthetic `{role: 'user', content: 'Continue.'}` message. -/
def continueMsg : JsonVal :=
  .obj [("role", .str "user"), ("content", .str "Continue.")]

/-- `fixTrailingAssistant(req)` (anthropic.ts lines 47-56): append the
synthetic user message when the last message's role is `assistant`
(`messages[length-1]?.role`, so an empty list passes through). -/
def fixTrailingAssistant (req : AnthropicRequest) : AnthropicRequest :=
  match req.messages.getLast? with
  | some lastMsg =>
    if propIsStr lastMsg "role" "assistant" then
      { req with messages := req.messages ++ [continueMsg] }
    else req
  | none => req

/-- `preprocessRequest = pipe(normalizeToolIds, fixTrailingAssistant)`.
Modelled from the spec: the `pipe` combinator's source file
(`src/utils/pipeline.ts`) is not in the mirror; per the design notes it
applies its transforms left-to-right, matching the earlier inlined call
`fixTrailingAssistant(normalizeToolIds(rawBody))`. -/
def preprocessRequest (req : AnthropicRequest) : AnthropicRequest :=
  fixTrailingAssistant (normalizeToolIds req)

/-! ### Backend auth selection (`isInternalService`, `getBackendAuth`,
src/utils/auth.ts) -/

/-- JavaScript `s.includes(sub)` over the underlying characters. -/
def listIncludes (l sub : List Char) : Bool :=
  sub.isPrefixOf l ||
    (match l with
     | [] => false
     | _ :: t => listIncludes t sub)

/-- `url.includes('.cluster.local')`. -/
def isInternalService (url : String) : Bool :=
  listIncludes url.data ".cluster.local".data

/-- The backend descriptor fields `getBackendAuth` reads. -/
structure BackendCfg where
  url : String
  apiKey : String

/-- `getBackendAuth(backend, clientAuth)` (auth.ts): internal cluster
services always use the backend key; external services use
`backend.apiKey || clientAuth`. -/
def getBackendAuth (backend : BackendCfg) (clientAuth : Option String) :
    Option String :=
  if isInternalService backend.url then some backend.apiKey
  else if backend.apiKey ≠ "" then some backend.apiKey
  else clientAuth

/-! ### Streaming handler and SSE error frame (`streamAnthropic`,
src/routes/anthropic.ts lines 224-246; `formatSseError`,
src/utils/http.ts) -/

/-- A JavaScript exception as observed by `formatSseError`: an `Error`
carrying a message, or any other thrown value. -/
inductive JsErr where
  | error (message : String) : JsErr
  | other : JsErr

/-- `error instanceof Error ? error.message : 'Unknown error'`. -/
def errMessage : JsErr → String
  | .error m => m
  | .other => "Unknown error"

/-- The object `{type: 'error', error: {type: 'api_error', message}}`
serialized by `formatSseError` (http.ts, default `type = 'error'`). -/
def sseErrorPayload (e : JsErr) : JsonVal :=
  .obj [("type", .str "error"),
        ("error", .obj [("type", .str "api_error"), ("message", .str (errMessage e))])]

/-- `formatSseError(error)`. -/
def formatSseError (e : JsErr) : String :=
  "data: " ++ jsonStringify (sseErrorPayload e) ++ "\n\n"

/-- The backend stream as consumed by `streamAnthropic`: the chunks yielded
before the iterator either completes or raises. -/
structure BackendStream where
  chunks : List String
  failure : Option JsErr

/-- `streamAnthropic`'s write sequence (anthropic.ts lines 233-245): each
yielded chunk is written verbatim (the `filterSseChunk` call is disabled in
the loop), a mid-stream error is caught and written as one
`formatSseError` frame, and `reply.raw.end()` always runs (the `Bool` is
true iff the stream was ended). -/
def streamAnthropicRun (s : BackendStream) : List String × Bool :=
  (s.chunks ++
    (match s.failure with
     | some e => [formatSseError e]
     | none => []),
   true)

/-! ## Helper lemmas -/

theorem lookupField_insertField_self (k : String) (v : JsonVal) :
    ∀ fs, lookupField (insertField fs k v) k = some v := by
  intro fs
  induction fs with
  | nil => simp [insertField, lookupField]
  | cons p rest ih =>
    by_cases hp : p.1 = k
    · simp [insertField, lookupField, hp]
    · by_cases ha : (rest.any fun q => decide (q.1 = k)) = true
      · have h2 : insertField rest k v
            = rest.map (fun q => if q.1 = k then (k, v) else q) := by
          simp [insertField, ha]
        have h3 : insertField (p :: rest) k v
            = p :: rest.map (fun q => if q.1 = k then (k, v) else q) := by
          simp [insertField, ha, hp]
        rw [h3]
        simpa [lookupField, hp, h2] using ih
      · have h2 : insertField rest k v = rest ++ [(k, v)] := by
          simp [insertField, ha]
        have h3 : insertField (p :: rest) k v = p :: (rest ++ [(k, v)]) := by
          simp [insertField, ha, hp]
        rw [h3]
        simpa [lookupField, hp, h2] using ih

theorem lookupField_map_subst_ne (k k' : String) (v : JsonVal) (hne : k' ≠ k) :
    ∀ fs : List (String × JsonVal),
      lookupField (fs.map (fun q => if q.1 = k then (k, v) else q)) k'
        = lookupField fs k' := by
  intro fs
  induction fs with
  | nil => simp [lookupField]
  | cons p rest ih =>
    obtain ⟨pk, pv⟩ := p
    by_cases hp : pk = k
    · have hmap : ((pk, pv) :: rest).map (fun q => if q.1 = k then (k, v) else q)
          = (k, v) :: rest.map (fun q => if q.1 = k then (k, v) else q) := by
        simp [hp]
      rw [hmap]
      simp only [lookupField, if_neg (fun h => hne (h : k = k').symm),
        if_neg (fun h => hne (hp.symm.trans h : k = k').symm)]
      exact ih
    · have hmap : ((pk, pv) :: rest).map (fun q => if q.1 = k then (k, v) else q)
          = (pk, pv) :: rest.map (fun q => if q.1 = k then (k, v) else q) := by
        simp [hp]
      rw [hmap]
      simp only [lookupField]
      by_cases hp' : pk = k'
      · simp [hp']
      · simp [hp', ih]

theorem lookupField_append_single_ne (k k' : String) (v : JsonVal) (hne : k' ≠ k) :
    ∀ fs : List (String × JsonVal),
      lookupField (fs ++ [(k, v)]) k' = lookupField fs k' := by
  intro fs
  induction fs with
  | nil => simp only [List.nil_append, lookupField, if_neg (fun h => hne (h : k = k').symm)]
  | cons p rest ih =>
    obtain ⟨pk, pv⟩ := p
    simp only [List.cons_append, lookupField]
    by_cases hp' : pk = k'
    · simp [hp']
    · simp [hp', ih]

theorem lookupField_insertField_ne (k k' : String) (v : JsonVal) (hne : k' ≠ k)
    (fs : List (String × JsonVal)) :
    lookupField (insertField fs k v) k' = lookupField fs k' := by
  unfold insertField
  split
  · exact lookupField_map_subst_ne k k' v hne fs
  · exact lookupField_append_single_ne k k' v hne fs

theorem insertField_contains (k : String) (v : JsonVal) :
    ∀ fs : List (String × JsonVal),
      ((insertField fs k v).any fun q => decide (q.1 = k)) = true := by
  intro fs
  unfold insertField
  split
  · rename_i h
    induction fs with
    | nil => simp at h
    | cons p rest ih =>
      obtain ⟨pk, pv⟩ := p
      by_cases hp : pk = k
      · simp [hp]
      · simp only [List.any_cons, Bool.or_eq_true, decide_eq_true_eq] at h
        rcases h with h | h
        · exact absurd h hp
        · simpa [hp] using ih h
  · simp

theorem map_subst_insertField (k : String) (v : JsonVal) :
    ∀ fs : List (String × JsonVal),
      (insertField fs k v).map (fun q => if q.1 = k then (k, v) else q)
        = insertField fs k v := by
  intro fs
  unfold insertField
  split
  · rw [List.map_map]
    refine List.map_congr_left (fun q _ => ?_)
    by_cases hq : q.1 = k
    · simp [hq]
    · simp [hq]
  · rename_i h
    rw [List.map_append]
    have h1 : fs.map (fun q => if q.1 = k then (k, v) else q) = fs := by
      have h2 : fs.map (fun q => if q.1 = k then (k, v) else q) = fs.map id := by
        refine List.map_congr_left (fun q hq => ?_)
        have : ¬(q.1 = k) := by
          intro hk
          exact absurd (List.any_eq_true.2 ⟨q, hq, by simp [hk]⟩) h
        simp [this]
      simpa using h2
    simp [h1]

theorem insertField_insertField_same (k : String) (v : JsonVal)
    (fs : List (String × JsonVal)) :
    insertField (insertField fs k v) k v = insertField fs k v := by
  have hc := insertField_contains k v fs
  conv_lhs => rw [insertField]
  rw [if_pos hc]
  exact map_subst_insertField k v fs

theorem jsGetProp_objSet_self (fs : List (String × JsonVal)) (k : String)
    (v : JsonVal) : jsGetProp (objSet (.obj fs) k v) k = some v := by
  simp [objSet, jsGetProp, lookupField_insertField_self]

theorem jsGetProp_objSet_ne (fs : List (String × JsonVal)) (k k' : String)
    (v : JsonVal) (hne : k' ≠ k) :
    jsGetProp (objSet (.obj fs) k v) k' = jsGetProp (.obj fs) k' := by
  simp [objSet, jsGetProp, lookupField_insertField_ne k k' v hne]

theorem objSet_objSet_same (o : JsonVal) (k : String) (v : JsonVal) :
    objSet (objSet o k v) k v = objSet o k v := by
  cases o <;> simp [objSet, insertField_insertField_same]

theorem jsGetProp_some_obj {v : JsonVal} {k : String} {x : JsonVal}
    (h : jsGetProp v k = some x) : ∃ fs, v = .obj fs := by
  cases v <;> simp [jsGetProp] at h ⊢

theorem data_appendS (a b : String) : (a ++ b).data = a.data ++ b.data := by
  cases a
  cases b
  rfl

theorem mk_dataS (s : String) : String.mk s.data = s := by
  cases s
  rfl

theorem isPrefixOf_append_self (p t : List Char) : p.isPrefixOf (p ++ t) = true := by
  induction p with
  | nil => simp
  | cons c cs ih => simp [List.isPrefixOf_cons₂, ih]

theorem startsWithS_append_self (p t : String) : startsWithS (p ++ t) p = true := by
  simp [startsWithS, data_appendS, isPrefixOf_append_self]

theorem data_not_event (s : String) :
    startsWithS ("data: " ++ s) "event: " = false := by
  simp only [startsWithS, data_appendS]
  show List.isPrefixOf ('e' :: _) ('d' :: _) = false
  simp [List.isPrefixOf_cons₂]

theorem dropS_dataLine (s : String) : dropS ("data: " ++ s) 6 = s := by
  simp only [dropS, data_appendS]
  show String.mk (List.drop 6 ('d' :: 'a' :: 't' :: 'a' :: ':' :: ' ' :: s.data)) = s
  simp [mk_dataS]

theorem splitNl_no_nl (l : List Char) (h : '\n' ∉ l) : splitNl l = [l] := by
  induction l with
  | nil => rfl
  | cons c cs ih =>
    have hc : ¬(c = '\n') := fun hc => h (hc ▸ List.mem_cons_self c cs)
    have hcs : '\n' ∉ cs := fun hm => h (List.mem_cons_of_mem c hm)
    simp [splitNl, hc, ih hcs]

theorem splitNl_append (l1 l2 : List Char) (h : '\n' ∉ l1) :
    splitNl (l1 ++ '\n' :: l2) = l1 :: splitNl l2 := by
  induction l1 with
  | nil => simp [splitNl]
  | cons c cs ih =>
    have hc : ¬(c = '\n') := fun hc => h (hc ▸ List.mem_cons_self c cs)
    have hcs : '\n' ∉ cs := fun hm => h (List.mem_cons_of_mem c hm)
    simp only [List.cons_append, splitNl, hc, if_false]
    rw [show cs.append ('\n' :: l2) = cs ++ '\n' :: l2 from rfl, ih hcs]

theorem splitNl_ne_nil (l : List Char) : splitNl l ≠ [] := by
  induction l with
  | nil => simp [splitNl]
  | cons c cs ih =>
    by_cases hc : c = '\n'
    · simp [splitNl, hc]
    · simp only [splitNl, hc, if_false]
      cases h : splitNl cs with
      | nil => simp
      | cons x xs => simp

theorem splitLines_frame (e s : String) (he : '\n' ∉ e.data) (hs : '\n' ∉ s.data) :
    splitLines (("event: " ++ e) ++ "\n" ++ ("data: " ++ s))
      = ["event: " ++ e, "data: " ++ s] := by
  have hd : (("event: " ++ e) ++ "\n" ++ ("data: " ++ s)).data
      = ("event: " ++ e).data ++ '\n' :: ("data: " ++ s).data := by
    simp [data_appendS]
  have h1 : '\n' ∉ ("event: " ++ e).data := by
    rw [data_appendS]
    intro hm
    rcases List.mem_append.1 hm with hm | hm
    · simp at hm
    · exact he hm
  have h2 : '\n' ∉ ("data: " ++ s).data := by
    rw [data_appendS]
    intro hm
    rcases List.mem_append.1 hm with hm | hm
    · simp at hm
    · exact hs hm
  simp only [splitLines, hd, splitNl_append _ _ h1, splitNl_no_nl _ h2,
    List.map_cons, List.map_nil, mk_dataS]

theorem processLines_frame (st : IndexSet) (e s : String) :
    processLines ["event: " ++ e, "data: " ++ s] st none []
      = if s = "[DONE]" then (["event: " ++ e, "data: " ++ s], st)
        else
          match jsonParse s with
          | some data =>
            if (filterDataValue data st).1 then
              (["event: " ++ e, "data: " ++ s], (filterDataValue data st).2)
            else ([], (filterDataValue data st).2)
          | none => (["event: " ++ e, "data: " ++ s], st)
      := by
  rw [processLines, if_pos (startsWithS_append_self "event: " e)]
  rw [processLines]
  rw [if_neg (by rw [data_not_event]; exact Bool.false_ne_true)]
  rw [if_neg (by rw [startsWithS_append_self]; simp)]
  simp only [dropS_dataLine]
  by_cases hdone : s = "[DONE]"
  · rw [if_pos hdone, if_pos hdone]
    simp [processLines, pendingOut]
  · rw [if_neg hdone, if_neg hdone]
    cases hp : jsonParse s with
    | none => simp [processLines, pendingOut]
    | some data =>
      by_cases hk : (filterDataValue data st).1
      · simp only [hk, if_true]
        simp [processLines, pendingOut]
      · simp only [hk, if_false]
        simp [processLines, pendingOut, hk]

theorem joinNl_pair (x y : String) : joinNl [x, y] = x ++ "\n" ++ y := rfl

theorem filterSseChunk_frame (st : IndexSet) (e s : String)
    (he : '\n' ∉ e.data) (hs : '\n' ∉ s.data) :
    filterSseChunk (("event: " ++ e) ++ "\n" ++ ("data: " ++ s)) st
      = if s = "[DONE]" then ((("event: " ++ e) ++ "\n" ++ ("data: " ++ s)), st)
        else
          match jsonParse s with
          | some data =>
            if (filterDataValue data st).1 then
              ((("event: " ++ e) ++ "\n" ++ ("data: " ++ s)), (filterDataValue data st).2)
            else ("", (filterDataValue data st).2)
          | none => ((("event: " ++ e) ++ "\n" ++ ("data: " ++ s)), st)
      := by
  unfold filterSseChunk
  rw [splitLines_frame e s he hs, processLines_frame]
  by_cases hdone : s = "[DONE]"
  · simp [hdone, joinNl_pair]
  · rw [if_neg hdone, if_neg hdone]
    cases hp : jsonParse s with
    | none => simp [joinNl_pair]
    | some data =>
      by_cases hk : (filterDataValue data st).1
      · simp [hk, joinNl_pair]
      · simp [hk, joinNl]

theorem setHas_setAdd (st : IndexSet) (x v : Option JsonVal)
    (h : setHas st v = true) : setHas (setAdd st x) v = true := by
  unfold setAdd
  split
  · exact h
  · unfold setHas at h ⊢
    simp only [List.any_append, Bool.or_eq_true]
    exact Or.inl h

theorem filterDataValue_mono (data : JsonVal) (st : IndexSet) (v : Option JsonVal)
    (h : setHas st v = true) : setHas (filterDataValue data st).2 v = true := by
  unfold filterDataValue
  split
  · exact setHas_setAdd st _ v h
  · split
    · exact h
    · exact h

theorem processLines_mono (lines : List String) :
    ∀ (st : IndexSet) (pending : Option String) (out : List String)
      (v : Option JsonVal), setHas st v = true →
      setHas (processLines lines st pending out).2 v = true := by
  induction lines with
  | nil => intro st pending out v h; simpa [processLines] using h
  | cons line rest ih =>
    intro st pending out v h
    rw [processLines]
    split
    · exact ih st (some line) out v h
    · split
      · exact ih st none _ v h
      · dsimp only
        split
        · exact ih st none _ v h
        · split
          · rename_i data _
            by_cases hk : (filterDataValue data st).1
            · simp only [hk, if_true]
              exact ih _ none _ v (filterDataValue_mono data st v h)
            · simp only [hk, if_false]
              exact ih _ none _ v (filterDataValue_mono data st v h)
          · exact ih st none _ v h

theorem filterSseChunk_mono (chunk : String) (st : IndexSet) (v : Option JsonVal)
    (h : setHas st v = true) : setHas (filterSseChunk chunk st).2 v = true := by
  unfold filterSseChunk
  exact processLines_mono (splitLines chunk) st none [] v h

theorem filterDataValue_empty_start (data : JsonVal) (st : IndexSet)
    (h1 : jsGetProp data "type" = some (.str "content_block_start"))
    (h2 : jsGetPropOpt (jsGetProp data "content_block") "type" = some (.str "text"))
    (h3 : jsGetPropOpt (jsGetProp data "content_block") "text" = some (.str "")) :
    filterDataValue data st = (false, setAdd st (jsGetProp data "index")) := by
  unfold filterDataValue
  rw [if_pos]
  simp [propIsStr, h1, h2, h3]

theorem filterDataValue_suppressed (data : JsonVal) (st : IndexSet)
    (ix : JsonVal)
    (hidx : jsGetProp data "index" = some ix)
    (hhas : setHas st (some ix) = true)
    (htype : jsGetProp data "type" = some (.str "content_block_delta")
      ∨ jsGetProp data "type" = some (.str "content_block_stop")) :
    filterDataValue data st = (false, st) := by
  unfold filterDataValue
  rw [if_neg, if_pos]
  · rcases htype with h | h <;> simp [propIsStr, h, hidx, hhas]
  · rcases htype with h | h <;> simp [propIsStr, h]

theorem filterDataValue_tool_use (data : JsonVal) (st : IndexSet)
    (h1 : jsGetProp data "type" = some (.str "content_block_start"))
    (h2 : jsGetPropOpt (jsGetProp data "content_block") "type"
      = some (.str "tool_use")) :
    filterDataValue data st = (true, st) := by
  unfold filterDataValue
  rw [if_neg, if_neg]
  · simp [propIsStr, h1]
  · simp [propIsStr, h1, h2]

/-- Claim C3: a `content_block_start` whose content block is a text block
with empty text at index `k` is suppressed entirely (its `event:` line
included) and `k` is added to the stream's suppressed-index set; any later
`content_block_delta`/`content_block_stop` at an index in the set — in the
same or a later chunk, since the set only ever grows — is suppressed with
state unchanged; and a `content_block_start` whose content block is a
`tool_use` is forwarded untouched with nothing added to the set. -/
theorem claim_c3 :
    (∀ (st : IndexSet) (e s : String) (data : JsonVal) (k : Int),
       '\n' ∉ e.data → '\n' ∉ s.data → jsonParse s = some data →
       jsGetProp data "type" = some (.str "content_block_start") →
       jsGetPropOpt (jsGetProp data "content_block") "type" = some (.str "text") →
       jsGetPropOpt (jsGetProp data "content_block") "text" = some (.str "") →
       jsGetProp data "index" = some (.num k) →
       filterSseChunk (("event: " ++ e) ++ "\n" ++ ("data: " ++ s)) st
         = ("", setAdd st (some (.num k))))
    ∧ (∀ (st : IndexSet) (e s : String) (data : JsonVal) (k : Int),
       '\n' ∉ e.data → '\n' ∉ s.data → jsonParse s = some data →
       jsGetProp data "index" = some (.num k) →
       setHas st (some (.num k)) = true →
       (jsGetProp data "type" = some (.str "content_block_delta")
         ∨ jsGetProp data "type" = some (.str "content_block_stop")) →
       filterSseChunk (("event: " ++ e) ++ "\n" ++ ("data: " ++ s)) st = ("", st))
    ∧ (∀ (st : IndexSet) (e s : String) (data : JsonVal),
       '\n' ∉ e.data → '\n' ∉ s.data → jsonParse s = some data →
       jsGetProp data "type" = some (.str "content_block_start") →
       jsGetPropOpt (jsGetProp data "content_block") "type" = some (.str "tool_use") →
       filterSseChunk (("event: " ++ e) ++ "\n" ++ ("data: " ++ s)) st
         = ((("event: " ++ e) ++ "\n" ++ ("data: " ++ s)), st))
    ∧ (∀ (chunk : String) (st : IndexSet) (v : Option JsonVal),
       setHas st v = true → setHas (filterSseChunk chunk st).2 v = true) := by
  refine ⟨?_, ?_, ?_, ?_⟩
  · intro st e s data k he hs hp h1 h2 h3 hidx
    have hdone : s ≠ "[DONE]" := by
      intro hd
      rw [hd] at hp
      exact Option.noConfusion ((rfl : jsonParse "[DONE]" = none) ▸ hp)
    rw [filterSseChunk_frame st e s he hs, if_neg hdone, hp]
    dsimp only
    rw [filterDataValue_empty_start data st h1 h2 h3, hidx]
    simp
  · intro st e s data k he hs hp hidx hhas htype
    have hdone : s ≠ "[DONE]" := by
      intro hd
      rw [hd] at hp
      exact Option.noConfusion ((rfl : jsonParse "[DONE]" = none) ▸ hp)
    rw [filterSseChunk_frame st e s he hs, if_neg hdone, hp]
    dsimp only
    rw [filterDataValue_suppressed data st (.num k) hidx hhas htype]
    simp
  · intro st e s data he hs hp h1 h2
    have hdone : s ≠ "[DONE]" := by
      intro hd
      rw [hd] at hp
      exact Option.noConfusion ((rfl : jsonParse "[DONE]" = none) ▸ hp)
    rw [filterSseChunk_frame st e s he hs, if_neg hdone, hp]
    dsimp only
    rw [filterDataValue_tool_use data st h1 h2]
    simp
  · exact fun chunk st v h => filterSseChunk_mono chunk st v h

/-- Claim C7: `filterSseChunk` is total (it is a Lean function), and an SSE
frame whose `data:` payload is not valid JSON — including the literal
`[DONE]` sentinel — passes through unchanged together with its pending
`event:` line, with the suppressed-index state untouched. -/
theorem claim_c7 (st : IndexSet) (e s : String)
    (he : '\n' ∉ e.data) (hs : '\n' ∉ s.data)
    (hbad : jsonParse s = none ∨ s = "[DONE]") :
    filterSseChunk (("event: " ++ e) ++ "\n" ++ ("data: " ++ s)) st
      = ((("event: " ++ e) ++ "\n" ++ ("data: " ++ s)), st) := by
  rw [filterSseChunk_frame st e s he hs]
  by_cases hdone : s = "[DONE]"
  · rw [if_pos hdone]
  · rw [if_neg hdone]
    rcases hbad with hp | hp
    · rw [hp]
    · exact absurd hp hdone

/-- Witness for C3 at concrete inputs: an empty-text `content_block_start`
frame at index 0 is erased and 0 recorded; a `content_block_delta` frame at
the recorded index 0 is erased with the set unchanged; a `tool_use`
`content_block_start` frame passes through; membership of the set survives
processing an unrelated chunk. -/
theorem claim_c3_witness :
    filterSseChunk (("event: " ++ "content_block_start") ++ "\n" ++
        ("data: " ++ "\x7b\"type\":\"content_block_start\",\"index\":0,\"content_block\":\x7b\"type\":\"text\",\"text\":\"\"\x7d\x7d"))
      [] = ("", [some (JsonVal.num 0)])
    ∧ filterSseChunk (("event: " ++ "content_block_delta") ++ "\n" ++
        ("data: " ++ "\x7b\"type\":\"content_block_delta\",\"index\":0,\"delta\":\x7b\"type\":\"text_delta\",\"text\":\"x\"\x7d\x7d"))
      [some (JsonVal.num 0)] = ("", [some (JsonVal.num 0)])
    ∧ filterSseChunk (("event: " ++ "content_block_start") ++ "\n" ++
        ("data: " ++ "\x7b\"type\":\"content_block_start\",\"index\":1,\"content_block\":\x7b\"type\":\"tool_use\",\"id\":\"t1\",\"name\":\"bash\",\"input\":\x7b\x7d\x7d\x7d"))
      [] = ((("event: " ++ "content_block_start") ++ "\n" ++
        ("data: " ++ "\x7b\"type\":\"content_block_start\",\"index\":1,\"content_block\":\x7b\"type\":\"tool_use\",\"id\":\"t1\",\"name\":\"bash\",\"input\":\x7b\x7d\x7d\x7d")), [])
    ∧ setHas (filterSseChunk "data: odd" [some (JsonVal.num 3)]).2 (some (JsonVal.num 3)) = true := by
  refine ⟨?_, ?_, ?_, ?_⟩
  · exact claim_c3.1 [] "content_block_start" _
      (.obj [("type", .str "content_block_start"), ("index", .num 0),
             ("content_block", .obj [("type", .str "text"), ("text", .str "")])])
      0 (by decide) (by decide) rfl rfl rfl rfl rfl
  · exact claim_c3.2.1 [some (.num 0)] "content_block_delta" _
      (.obj [("type", .str "content_block_delta"), ("index", .num 0),
             ("delta", .obj [("type", .str "text_delta"), ("text", .str "x")])])
      0 (by decide) (by decide) rfl rfl rfl (Or.inl rfl)
  · exact claim_c3.2.2.1 [] "content_block_start" _
      (.obj [("type", .str "content_block_start"), ("index", .num 1),
             ("content_block", .obj [("type", .str "tool_use"), ("id", .str "t1"),
               ("name", .str "bash"), ("input", .obj [])])])
      (by decide) (by decide) rfl rfl rfl
  · exact claim_c3.2.2.2 "data: odd" [some (.num 3)] (some (.num 3)) rfl

/-- Witness for C7 at concrete inputs: a frame with a non-JSON payload and
a `[DONE]` frame both pass through unchanged with the state untouched. -/
theorem claim_c7_witness :
    filterSseChunk (("event: " ++ "ping") ++ "\n" ++ ("data: " ++ "invalid json here")) []
      = ((("event: " ++ "ping") ++ "\n" ++ ("data: " ++ "invalid json here")), [])
    ∧ filterSseChunk (("event: " ++ "done") ++ "\n" ++ ("data: " ++ "[DONE]"))
        [some (JsonVal.num 0)]
      = ((("event: " ++ "done") ++ "\n" ++ ("data: " ++ "[DONE]")), [some (JsonVal.num 0)]) := by
  constructor
  · exact claim_c7 [] "ping" "invalid json here" (by decide) (by decide) (Or.inl rfl)
  · exact claim_c7 [some (.num 0)] "done" "[DONE]" (by decide) (by decide) (Or.inr rfl)

/-- Claim C1 (evaluation of the code at the failing input): when an
`event:` line arrives at the end of one chunk and its paired `data:` line —
an empty-text `content_block_start`, which is suppressed — arrives in the
next chunk, `filterSseChunk` flushes the pending `event:` line at the first
chunk's end (anthropic.ts lines 217-219) and suppresses only the data line,
so the concatenated client-facing output is exactly one orphan `event:`
line with no `data:` line after it, violating the orphan-line invariant. -/
theorem claim_c1 :
    filterSseStream
      ["event: content_block_start",
       "data: \x7b\"type\":\"content_block_start\",\"index\":0,\"content_block\":\x7b\"type\":\"text\",\"text\":\"\"\x7d\x7d"]
      [] = ["event: content_block_start", ""]
    ∧ String.join
        (filterSseStream
          ["event: content_block_start",
           "data: \x7b\"type\":\"content_block_start\",\"index\":0,\"content_block\":\x7b\"type\":\"text\",\"text\":\"\"\x7d\x7d"]
          []) = "event: content_block_start"
    ∧ startsWithS "event: content_block_start" "event: " = true := by
  exact ⟨rfl, rfl, rfl⟩

/-- Claim C2 (evaluation of the code at the failing input): the streaming
loop (anthropic.ts lines 237-239, filtering disabled) writes the backend
chunk verbatim, while the chunk-wise `filterSseChunk` transform of the same
stream — the claimed client-facing behaviour — produces the empty string
for this chunk; the two disagree. -/
theorem claim_c2 :
    (streamAnthropicRun
      ⟨["event: content_block_start\ndata: \x7b\"type\":\"content_block_start\",\"index\":0,\"content_block\":\x7b\"type\":\"text\",\"text\":\"\"\x7d\x7d"],
        none⟩).1
      = ["event: content_block_start\ndata: \x7b\"type\":\"content_block_start\",\"index\":0,\"content_block\":\x7b\"type\":\"text\",\"text\":\"\"\x7d\x7d"]
    ∧ filterSseStream
        ["event: content_block_start\ndata: \x7b\"type\":\"content_block_start\",\"index\":0,\"content_block\":\x7b\"type\":\"text\",\"text\":\"\"\x7d\x7d"]
        [] = [""]
    ∧ "event: content_block_start\ndata: \x7b\"type\":\"content_block_start\",\"index\":0,\"content_block\":\x7b\"type\":\"text\",\"text\":\"\"\x7d\x7d"
        ≠ "" := by
  exact ⟨rfl, rfl, by decide⟩

theorem keepBlock_eq (b : JsonVal) : keepBlock b = !(isEmptyTextBlock b) := by
  unfold keepBlock isEmptyTextBlock
  by_cases ht : propIsStr b "type" "text"
  · rw [if_pos ht, ht]
    cases hx : jsGetProp b "text" with
    | none => simp
    | some w =>
      cases w with
      | str t => by_cases htt : t = "" <;> simp [htt]
      | null => simp
      | bool c => simp
      | num n => simp
      | arr xs => simp
      | obj fs => simp
  · rw [if_neg ht]
    simp only [Bool.not_eq_true] at ht
    rw [ht]
    simp

/-- Claim C5: for a response whose `content` is an array,
`filterEmptyTextBlocks` removes exactly the blocks with type `text` and
empty text, preserving the order of the rest and leaving every other field
of the response unchanged — except that when filtering would empty a
non-empty list the original response is returned; consequently a non-empty
content list never becomes empty. -/
theorem claim_c5 (r : JsonVal) (blocks : List JsonVal)
    (h : jsGetProp r "content" = some (.arr blocks)) :
    (blocks.filter (fun b => !(isEmptyTextBlock b)) = [] ∧ blocks ≠ [] →
       filterEmptyTextBlocks r = r)
    ∧ (blocks.filter (fun b => !(isEmptyTextBlock b)) ≠ [] ∨ blocks = [] →
       jsGetProp (filterEmptyTextBlocks r) "content"
         = some (.arr (blocks.filter (fun b => !(isEmptyTextBlock b))))
       ∧ ∀ k, k ≠ "content" → jsGetProp (filterEmptyTextBlocks r) k = jsGetProp r k)
    ∧ (blocks ≠ [] →
       ∃ bs, jsGetProp (filterEmptyTextBlocks r) "content" = some (.arr bs)
         ∧ 1 ≤ bs.length) := by
  obtain ⟨fs, rfl⟩ := jsGetProp_some_obj h
  have hfil : blocks.filter keepBlock = blocks.filter (fun b => !(isEmptyTextBlock b)) :=
    List.filter_congr (fun b _ => keepBlock_eq b)
  have hunf : filterEmptyTextBlocks (.obj fs)
      = if (blocks.filter keepBlock).length = 0 ∧ blocks.length > 0 then .obj fs
        else objSet (.obj fs) "content" (.arr (blocks.filter keepBlock)) := by
    unfold filterEmptyTextBlocks
    rw [h]
  refine ⟨?_, ?_, ?_⟩
  · rintro ⟨hf, hb⟩
    rw [hunf, if_pos ⟨by rw [hfil, hf]; rfl, List.length_pos.2 hb⟩]
  · intro hor
    have hcond : ¬((blocks.filter keepBlock).length = 0 ∧ blocks.length > 0) := by
      rcases hor with hne | hnil
      · rintro ⟨hf, _⟩
        exact hne (by rwa [hfil, List.length_eq_zero] at hf)
      · rintro ⟨_, hpos⟩
        rw [hnil] at hpos
        simp at hpos
    rw [hunf, if_neg hcond]
    refine ⟨?_, ?_⟩
    · rw [jsGetProp_objSet_self, hfil]
    · intro k hk
      exact jsGetProp_objSet_ne fs "content" k _ hk
  · intro hb
    by_cases hcond : (blocks.filter keepBlock).length = 0 ∧ blocks.length > 0
    · rw [hunf, if_pos hcond]
      exact ⟨blocks, h, List.length_pos.2 hb⟩
    · rw [hunf, if_neg hcond]
      refine ⟨blocks.filter keepBlock, jsGetProp_objSet_self fs "content" _, ?_⟩
      rcases Nat.eq_zero_or_pos (blocks.filter keepBlock).length with hz | hp
      · exact absurd ⟨hz, List.length_pos.2 hb⟩ hcond
      · exact hp

/-- Witness for C5 at the spec's end-to-end scenario B: a response with an
empty text block followed by a `tool_use` block keeps exactly the
`tool_use` block. -/
theorem claim_c5_witness :
    jsGetProp
      (filterEmptyTextBlocks
        (.obj [("content",
          .arr [.obj [("type", .str "text"), ("text", .str "")],
                .obj [("type", .str "tool_use"), ("id", .str "t1"),
                      ("name", .str "bash"), ("input", .obj [])]])]))
      "content"
      = some (.arr [.obj [("type", .str "tool_use"), ("id", .str "t1"),
                          ("name", .str "bash"), ("input", .obj [])]]) := by
  have h := (claim_c5
    (.obj [("content",
      .arr [.obj [("type", .str "text"), ("text", .str "")],
            .obj [("type", .str "tool_use"), ("id", .str "t1"),
                  ("name", .str "bash"), ("input", .obj [])]])])
    [.obj [("type", .str "text"), ("text", .str "")],
     .obj [("type", .str "tool_use"), ("id", .str "t1"),
           ("name", .str "bash"), ("input", .obj [])]]
    rfl).2.1 (Or.inl (by intro hx; exact List.noConfusion hx))
  exact h.1

/-- Claim C10: for a backend whose url contains `.cluster.local`, the
selected auth is always the backend's own API key, for every client
Authorization value — the client credential never influences the result. -/
theorem claim_c10 (b : BackendCfg) (ca : Option String)
    (h : listIncludes b.url.data ".cluster.local".data = true) :
    getBackendAuth b ca = some b.apiKey
    ∧ ∀ ca2 : Option String, getBackendAuth b ca = getBackendAuth b ca2 := by
  have hint : isInternalService b.url = true := h
  constructor
  · simp [getBackendAuth, hint]
  · intro ca2
    simp [getBackendAuth, hint]

/-- Witness for C10 at a concrete internal-cluster backend: the backend key
is returned, and supplying or omitting the client credential makes no
difference. -/
theorem claim_c10_witness :
    getBackendAuth ⟨"http://vllm.svc.cluster.local:8000", "internal-key"⟩
        (some "client-auth") = some "internal-key"
    ∧ getBackendAuth ⟨"http://vllm.svc.cluster.local:8000", "internal-key"⟩
        (some "client-auth")
      = getBackendAuth ⟨"http://vllm.svc.cluster.local:8000", "internal-key"⟩ none := by
  have h := claim_c10 ⟨"http://vllm.svc.cluster.local:8000", "internal-key"⟩
    (some "client-auth") (by decide)
  exact ⟨h.1, h.2 none⟩

theorem propIsStr_eq_true {v : JsonVal} {k s : String} :
    propIsStr v k s = true ↔ jsGetProp v k = some (.str s) := by
  unfold propIsStr
  cases h : jsGetProp v k with
  | none => simp
  | some w => cases w <;> simp

theorem normBlock_idem (b : JsonVal) : normBlock (normBlock b) = normBlock b := by
  by_cases hp : propIsStr b "type" "tool_result"
  · cases htid : jsGetProp b "tool_use_id" with
    | none => simp [normBlock, hp, htid]
    | some tid =>
      by_cases htr : truthy tid
      · have hb1 : normBlock b = objSet b "id" tid := by
          simp [normBlock, hp, htid, htr]
        obtain ⟨fs, rfl⟩ := jsGetProp_some_obj (propIsStr_eq_true.1 hp)
        have hp2 : propIsStr (objSet (.obj fs) "id" tid) "type" "tool_result" = true := by
          rw [propIsStr_eq_true, jsGetProp_objSet_ne fs "id" "type" tid (by decide)]
          exact propIsStr_eq_true.1 hp
        have htid2 : jsGetProp (objSet (.obj fs) "id" tid) "tool_use_id" = some tid := by
          rw [jsGetProp_objSet_ne fs "id" "tool_use_id" tid (by decide)]
          exact htid
        rw [hb1]
        simp [normBlock, hp2, htid2, htr, objSet_objSet_same]
      · simp [normBlock, hp, htid, htr]
  · simp [normBlock, hp]

theorem normMsg_idem (m : JsonVal) : normMsg (normMsg m) = normMsg m := by
  cases hc : jsGetProp m "content" with
  | none => simp [normMsg, hc]
  | some v =>
    cases v with
    | str s => simp [normMsg, hc]
    | arr blocks =>
      obtain ⟨fs, rfl⟩ := jsGetProp_some_obj hc
      have h1 : normMsg (.obj fs) = objSet (.obj fs) "content" (.arr (blocks.map normBlock)) := by
        simp [normMsg, hc]
      rw [h1]
      have h2 : jsGetProp (objSet (.obj fs) "content" (.arr (blocks.map normBlock))) "content"
          = some (.arr (blocks.map normBlock)) := jsGetProp_objSet_self fs "content" _
      have h3 : (blocks.map normBlock).map normBlock = blocks.map normBlock := by
        rw [List.map_map]
        exact List.map_congr_left (fun b _ => normBlock_idem b)
      simp only [normMsg, h2, h3]
      exact objSet_objSet_same _ "content" _
    | null => simp [normMsg, hc]
    | bool c => simp [normMsg, hc]
    | num n => simp [normMsg, hc]
    | obj gs => simp [normMsg, hc]

theorem normalizeToolIds_idem (r : AnthropicRequest) :
    normalizeToolIds (normalizeToolIds r) = normalizeToolIds r := by
  cases r with
  | mk msgs extra =>
    simp only [normalizeToolIds]
    congr 1
    rw [List.map_map]
    exact List.map_congr_left (fun m _ => normMsg_idem m)

theorem normMsg_continueMsg : normMsg continueMsg = continueMsg := rfl

theorem norm_messages_eq {n : AnthropicRequest} (h : normalizeToolIds n = n) :
    n.messages.map normMsg = n.messages := by
  have := congrArg AnthropicRequest.messages h
  simpa [normalizeToolIds] using this

theorem fixTrailing_none {n : AnthropicRequest}
    (hl : n.messages.getLast? = none) : fixTrailingAssistant n = n := by
  unfold fixTrailingAssistant
  rw [hl]

theorem fixTrailing_not_assistant {n : AnthropicRequest} {last : JsonVal}
    (hl : n.messages.getLast? = some last)
    (hrole : ¬(propIsStr last "role" "assistant" = true)) :
    fixTrailingAssistant n = n := by
  unfold fixTrailingAssistant
  rw [hl]
  dsimp only
  rw [if_neg hrole]

theorem fixTrailing_assistant {n : AnthropicRequest} {last : JsonVal}
    (hl : n.messages.getLast? = some last)
    (hrole : propIsStr last "role" "assistant" = true) :
    fixTrailingAssistant n = { n with messages := n.messages ++ [continueMsg] } := by
  unfold fixTrailingAssistant
  rw [hl]
  dsimp only
  rw [if_pos hrole]

theorem norm_fix (n : AnthropicRequest) (h : normalizeToolIds n = n) :
    normalizeToolIds (fixTrailingAssistant n) = fixTrailingAssistant n
    ∧ fixTrailingAssistant (fixTrailingAssistant n) = fixTrailingAssistant n := by
  cases hl : n.messages.getLast? with
  | none =>
    refine ⟨?_, ?_⟩ <;> rw [fixTrailing_none hl]
    · exact h
    · exact fixTrailing_none hl
  | some last =>
    by_cases hrole : propIsStr last "role" "assistant" = true
    · rw [fixTrailing_assistant hl hrole]
      constructor
      · obtain ⟨msgs, extra⟩ := n
        simp only [normalizeToolIds, List.map_append, List.map_cons, List.map_nil,
          normMsg_continueMsg]
        congr 1
        exact congrArg (· ++ [continueMsg]) (norm_messages_eq h)
      · have hl2 : ({ n with messages := n.messages ++ [continueMsg] }
            : AnthropicRequest).messages.getLast? = some continueMsg := by
          dsimp only
          exact List.getLast?_concat _
        exact fixTrailing_not_assistant hl2 (by decide)
    · refine ⟨?_, ?_⟩ <;> rw [fixTrailing_not_assistant hl hrole]
      · exact h
      · exact fixTrailing_not_assistant hl hrole

/-- Claim C6: the request preprocessing pipeline (`normalizeToolIds`
followed by `fixTrailingAssistant`) is idempotent. -/
theorem claim_c6 (r : AnthropicRequest) :
    preprocessRequest (preprocessRequest r) = preprocessRequest r := by
  unfold preprocessRequest
  obtain ⟨h1, h2⟩ := norm_fix (normalizeToolIds r) (normalizeToolIds_idem r)
  rw [h1, h2]

/-- Claim C9: for a `tool_result` block with a non-empty `tool_use_id`,
`normalizeToolIds` sets the block's `id` to the `tool_use_id`
unconditionally (overwriting any different existing `id`), leaves every
other field of the block untouched, leaves non-`tool_result` blocks and
string-content messages untouched, and leaves every other top-level field
of the request unchanged. -/
theorem claim_c9 :
    (∀ (block : JsonVal) (fs : List (String × JsonVal)) (tid : String),
       block = .obj fs →
       jsGetProp block "type" = some (.str "tool_result") →
       jsGetProp block "tool_use_id" = some (.str tid) → tid ≠ "" →
       normBlock block = objSet block "id" (.str tid)
       ∧ jsGetProp (normBlock block) "id" = some (.str tid)
       ∧ ∀ k, k ≠ "id" → jsGetProp (normBlock block) k = jsGetProp block k)
    ∧ (∀ block : JsonVal, jsGetProp block "type" ≠ some (.str "tool_result") →
       normBlock block = block)
    ∧ (∀ (msg : JsonVal) (s : String), jsGetProp msg "content" = some (.str s) →
       normMsg msg = msg)
    ∧ (∀ req : AnthropicRequest, (normalizeToolIds req).extra = req.extra
       ∧ (normalizeToolIds req).messages = req.messages.map normMsg) := by
  refine ⟨?_, ?_, ?_, ?_⟩
  · rintro block fs tid rfl htype htid hne
    have hp : propIsStr (JsonVal.obj fs) "type" "tool_result" = true :=
      propIsStr_eq_true.2 htype
    have htr : truthy (.str tid) = true := by
      simp [truthy, hne]
    have hb : normBlock (.obj fs) = objSet (.obj fs) "id" (.str tid) := by
      simp [normBlock, hp, htid, htr]
    refine ⟨hb, ?_, ?_⟩
    · rw [hb]
      exact jsGetProp_objSet_self fs "id" _
    · intro k hk
      rw [hb]
      exact jsGetProp_objSet_ne fs "id" k _ hk
  · intro block htype
    have hp : propIsStr block "type" "tool_result" = false := by
      rcases h : propIsStr block "type" "tool_result" with _ | _
      · rfl
      · exact absurd (propIsStr_eq_true.1 h) htype
    simp [normBlock, hp]
  · intro msg s hc
    simp [normMsg, hc]
  · intro req
    exact ⟨rfl, rfl⟩

/-- Witness for C9 at a concrete `tool_result` block whose existing `id`
differs from its `tool_use_id`: the `id` is overwritten and the other
fields survive. -/
theorem claim_c9_witness :
    normBlock (.obj [("type", .str "tool_result"), ("tool_use_id", .str "tu_1"),
        ("id", .str "old"), ("content", .str "ok")])
      = .obj [("type", .str "tool_result"), ("tool_use_id", .str "tu_1"),
        ("id", .str "tu_1"), ("content", .str "ok")]
    ∧ jsGetProp
        (normBlock (.obj [("type", .str "tool_result"), ("tool_use_id", .str "tu_1"),
          ("id", .str "old"), ("content", .str "ok")])) "id" = some (.str "tu_1")
    ∧ jsGetProp
        (normBlock (.obj [("type", .str "tool_result"), ("tool_use_id", .str "tu_1"),
          ("id", .str "old"), ("content", .str "ok")])) "content" = some (.str "ok") := by
  have h := claim_c9.1
    (.obj [("type", .str "tool_result"), ("tool_use_id", .str "tu_1"),
      ("id", .str "old"), ("content", .str "ok")])
    [("type", .str "tool_result"), ("tool_use_id", .str "tu_1"),
      ("id", .str "old"), ("content", .str "ok")]
    "tu_1" rfl rfl rfl (by decide)
  exact ⟨h.1, h.2.1, h.2.2 "content" (by decide)⟩

theorem hexDigit_ne_nl (n : Nat) : hexDigit n ≠ '\n' := by
  unfold hexDigit
  rcases Nat.lt_or_ge n 16 with h | h
  · interval_cases n <;> decide
  · rw [List.getD_eq_getElem?_getD, List.getElem?_eq_none (by simpa using h)]
    decide

theorem escapeChar_no_nl (c : Char) : '\n' ∉ escapeChar c := by
  unfold escapeChar
  split
  · decide
  · split
    · decide
    · split
      · decide
      · split
        · decide
        · split
          · decide
          · split
            · decide
            · split
              · decide
              · split
                · intro hm
                  simp only [List.mem_cons, List.not_mem_nil, or_false] at hm
                  rcases hm with hm | hm | hm | hm | hm | hm
                  · exact absurd hm (by decide)
                  · exact absurd hm (by decide)
                  · exact absurd hm (by decide)
                  · exact absurd hm (by decide)
                  · exact hexDigit_ne_nl _ hm.symm
                  · exact hexDigit_ne_nl _ hm.symm
                · rename_i h1 h2 h3 h4 h5 h6 h7 h8
                  intro hm
                  simp only [List.mem_cons, List.not_mem_nil, or_false] at hm
                  exact h3 hm.symm

theorem quoteJson_no_nl (s : String) : '\n' ∉ (quoteJson s).data := by
  unfold quoteJson
  intro hm
  have hm' : '\n' ∈ (List.map escapeChar s.data).flatten := by
    simpa using hm
  rcases List.mem_flatten.1 hm' with ⟨l, hl, hml⟩
  rcases List.mem_map.1 hl with ⟨c, _, rfl⟩
  exact escapeChar_no_nl c hml

theorem no_nl_append {a b : String} (ha : '\n' ∉ a.data) (hb : '\n' ∉ b.data) :
    '\n' ∉ (a ++ b).data := by
  rw [data_appendS]
  intro hm
  rcases List.mem_append.1 hm with h | h
  · exact ha h
  · exact hb h

theorem sseErrorPayload_no_nl (e : JsErr) :
    '\n' ∉ (jsonStringify (sseErrorPayload e)).data := by
  cases e <;>
    · simp only [sseErrorPayload, errMessage, jsonStringify, stringifyFields]
      repeat' first
        | exact quoteJson_no_nl _
        | apply no_nl_append
        | decide

/-- Claim C8: when the backend stream raises mid-stream, the handler writes
exactly one terminal SSE error frame after the chunks already forwarded —
the `formatSseError` output, which is a single `data:` line (its serialized
payload contains no newline) terminated by a blank line, whose JSON object
has type `error` with an `api_error` payload carrying the exception's
message — and then ends the stream; the exception itself is consumed by the
`catch`, never reaching the transport. -/
theorem claim_c8 (chunks : List String) (e : JsErr) :
    streamAnthropicRun ⟨chunks, some e⟩ = (chunks ++ [formatSseError e], true)
    ∧ formatSseError e = ("data: " ++ jsonStringify (sseErrorPayload e)) ++ "\n\n"
    ∧ '\n' ∉ ("data: " ++ jsonStringify (sseErrorPayload e)).data
    ∧ jsGetProp (sseErrorPayload e) "type" = some (.str "error")
    ∧ jsGetPropOpt (jsGetProp (sseErrorPayload e) "error") "type"
        = some (.str "api_error")
    ∧ jsGetPropOpt (jsGetProp (sseErrorPayload e) "error") "message"
        = some (.str (errMessage e)) := by
  refine ⟨rfl, ?_, ?_, rfl, rfl, rfl⟩
  · show "data: " ++ jsonStringify (sseErrorPayload e) ++ "\n\n" = _
    rfl
  · exact no_nl_append (by decide) (sseErrorPayload_no_nl e)

theorem enrichMessage_getProp (m : JsonVal) :
    jsGetProp (enrichMessage m) "type"
      = some (jsOr (jsGetProp m "type") (.str "message"))
    ∧ jsGetProp (enrichMessage m) "role"
      = some (jsOr (jsGetProp m "role") (.str "assistant"))
    ∧ jsGetProp (enrichMessage m) "stop_reason"
      = some (jsNullish (jsGetProp m "stop_reason"))
    ∧ jsGetProp (enrichMessage m) "stop_sequence"
      = some (jsNullish (jsGetProp m "stop_sequence"))
    ∧ ∀ k, k ≠ "type" → k ≠ "role" → k ≠ "stop_reason" → k ≠ "stop_sequence" →
        jsGetProp (enrichMessage m) k = lookupField (jsSpreadFields m) k := by
  have h4 : enrichMessage m
      = .obj (insertField
          (insertField
            (insertField
              (insertField (jsSpreadFields m) "type"
                (jsOr (jsGetProp m "type") (.str "message")))
              "role" (jsOr (jsGetProp m "role") (.str "assistant")))
            "stop_reason" (jsNullish (jsGetProp m "stop_reason")))
          "stop_sequence" (jsNullish (jsGetProp m "stop_sequence"))) := rfl
  rw [h4]
  refine ⟨?_, ?_, ?_, ?_, ?_⟩
  · show lookupField _ "type" = _
    rw [lookupField_insertField_ne _ _ _ (by decide),
      lookupField_insertField_ne _ _ _ (by decide),
      lookupField_insertField_ne _ _ _ (by decide),
      lookupField_insertField_self]
  · show lookupField _ "role" = _
    rw [lookupField_insertField_ne _ _ _ (by decide),
      lookupField_insertField_ne _ _ _ (by decide),
      lookupField_insertField_self]
  · show lookupField _ "stop_reason" = _
    rw [lookupField_insertField_ne _ _ _ (by decide),
      lookupField_insertField_self]
  · show lookupField _ "stop_sequence" = _
    rw [lookupField_insertField_self]
  · intro k hk1 hk2 hk3 hk4
    show lookupField _ k = _
    rw [lookupField_insertField_ne _ _ _ hk4,
      lookupField_insertField_ne _ _ _ hk3,
      lookupField_insertField_ne _ _ _ hk2,
      lookupField_insertField_ne _ _ _ hk1]

theorem enrichDataValue_message_start (data m : JsonVal)
    (u : List (String × JsonVal)) (t : Int) (st : IndexSet)
    (htype : jsGetProp data "type" = some (.str "message_start"))
    (hmsg : jsGetProp data "message" = some m)
    (htruthy : truthy m = true)
    (husage : jsGetProp (enrichMessage m) "usage" = some (.obj u)) :
    enrichDataValue data (some t) st
      = (.replace ("data: " ++ jsonStringify (objSet data "message"
          (objSet (enrichMessage m) "usage"
            (.obj (insertField u "input_tokens" (.num t)))))), st) := by
  unfold enrichDataValue
  rw [if_pos (by simp [propIsStr, htype, truthyOpt, hmsg, htruthy])]
  rw [hmsg]
  dsimp only
  rw [husage]
  dsimp only
  rw [if_pos (show truthy (JsonVal.obj u) = true from rfl)]
  rfl

theorem enrichDataValue_message_delta (data : JsonVal)
    (u : List (String × JsonVal)) (t : Int) (st : IndexSet)
    (htype : jsGetProp data "type" = some (.str "message_delta"))
    (husage : jsGetProp data "usage" = some (.obj u)) :
    enrichDataValue data (some t) st
      = (.replace ("data: " ++ jsonStringify (objSet data "usage"
          (.obj (insertField u "input_tokens" (.num t))))), st) := by
  unfold enrichDataValue
  rw [if_neg (by simp [propIsStr, htype])]
  rw [if_pos (by simp [propIsStr, htype, truthyOpt, husage, truthy, Option.isSome])]
  rw [husage]
  rfl

/-- Claim C4 (amended): in the `message_start` enrichment, `type` and
`role` are set to their defaults when missing *or present with a falsy
value* (the code uses `||`; both cases are proved universally below), and
a present truthy value is preserved; `stop_reason` and
`stop_sequence` become `null` when missing or `null` and a present
non-nullish value is preserved; every other field of the embedded message
is unchanged; when a precomputed token count is available and the enriched
message carries a usage object, the emitted payload is the message with
`usage.input_tokens` overwritten; and for `message_delta` with a usage
object and an available count, `input_tokens` is overwritten while
`output_tokens` is untouched. -/
theorem claim_c4 :
    (∀ m : JsonVal, jsGetProp m "type" = none →
       jsGetProp (enrichMessage m) "type" = some (.str "message"))
    ∧ (∀ m v : JsonVal, jsGetProp m "type" = some v → truthy v = true →
       jsGetProp (enrichMessage m) "type" = some v)
    ∧ (∀ m : JsonVal, jsGetProp m "role" = none →
       jsGetProp (enrichMessage m) "role" = some (.str "assistant"))
    ∧ (∀ m v : JsonVal, jsGetProp m "role" = some v → truthy v = true →
       jsGetProp (enrichMessage m) "role" = some v)
    ∧ (∀ m : JsonVal,
       (jsGetProp m "stop_reason" = none ∨ jsGetProp m "stop_reason" = some .null) →
       jsGetProp (enrichMessage m) "stop_reason" = some .null)
    ∧ (∀ m v : JsonVal, jsGetProp m "stop_reason" = some v → v ≠ .null →
       jsGetProp (enrichMessage m) "stop_reason" = some v)
    ∧ (∀ m : JsonVal,
       (jsGetProp m "stop_sequence" = none ∨ jsGetProp m "stop_sequence" = some .null) →
       jsGetProp (enrichMessage m) "stop_sequence" = some .null)
    ∧ (∀ m v : JsonVal, jsGetProp m "stop_sequence" = some v → v ≠ .null →
       jsGetProp (enrichMessage m) "stop_sequence" = some v)
    ∧ (∀ (m : JsonVal) (fs : List (String × JsonVal)) (k : String), m = .obj fs →
       k ≠ "type" → k ≠ "role" → k ≠ "stop_reason" → k ≠ "stop_sequence" →
       jsGetProp (enrichMessage m) k = jsGetProp m k)
    ∧ (∀ (data m : JsonVal) (u : List (String × JsonVal)) (t : Int) (st : IndexSet),
       jsGetProp data "type" = some (.str "message_start") →
       jsGetProp data "message" = some m → truthy m = true →
       jsGetProp (enrichMessage m) "usage" = some (.obj u) →
       enrichDataValue data (some t) st
         = (.replace ("data: " ++ jsonStringify (objSet data "message"
             (objSet (enrichMessage m) "usage"
               (.obj (insertField u "input_tokens" (.num t)))))), st)
       ∧ lookupField (insertField u "input_tokens" (.num t)) "input_tokens"
           = some (.num t))
    ∧ (∀ (data : JsonVal) (u : List (String × JsonVal)) (t : Int) (st : IndexSet),
       jsGetProp data "type" = some (.str "message_delta") →
       jsGetProp data "usage" = some (.obj u) →
       enrichDataValue data (some t) st
         = (.replace ("data: " ++ jsonStringify (objSet data "usage"
             (.obj (insertField u "input_tokens" (.num t))))), st)
       ∧ lookupField (insertField u "input_tokens" (.num t)) "input_tokens"
           = some (.num t)
       ∧ lookupField (insertField u "input_tokens" (.num t)) "output_tokens"
           = lookupField u "output_tokens")
    ∧ (∀ m v : JsonVal, jsGetProp m "type" = some v → truthy v = false →
       jsGetProp (enrichMessage m) "type" = some (.str "message"))
    ∧ (∀ m v : JsonVal, jsGetProp m "role" = some v → truthy v = false →
       jsGetProp (enrichMessage m) "role" = some (.str "assistant")) := by
  refine ⟨?_, ?_, ?_, ?_, ?_, ?_, ?_, ?_, ?_, ?_, ?_, ?_, ?_⟩
  · intro m h
    rw [(enrichMessage_getProp m).1, h]
    rfl
  · intro m v h ht
    rw [(enrichMessage_getProp m).1, h]
    simp [jsOr, ht]
  · intro m h
    rw [(enrichMessage_getProp m).2.1, h]
    rfl
  · intro m v h ht
    rw [(enrichMessage_getProp m).2.1, h]
    simp [jsOr, ht]
  · intro m h
    rw [(enrichMessage_getProp m).2.2.1]
    rcases h with h | h <;> rw [h] <;> rfl
  · intro m v h hv
    rw [(enrichMessage_getProp m).2.2.1, h]
    cases v <;> first | exact absurd rfl hv | rfl
  · intro m h
    rw [(enrichMessage_getProp m).2.2.2.1]
    rcases h with h | h <;> rw [h] <;> rfl
  · intro m v h hv
    rw [(enrichMessage_getProp m).2.2.2.1, h]
    cases v <;> first | exact absurd rfl hv | rfl
  · rintro m fs k rfl hk1 hk2 hk3 hk4
    rw [(enrichMessage_getProp _).2.2.2.2 k hk1 hk2 hk3 hk4]
    rfl
  · intro data m u t st htype hmsg htruthy husage
    exact ⟨enrichDataValue_message_start data m u t st htype hmsg htruthy husage,
      lookupField_insertField_self _ _ _⟩
  · intro data u t st htype husage
    exact ⟨enrichDataValue_message_delta data u t st htype husage,
      lookupField_insertField_self _ _ _,
      lookupField_insertField_ne _ _ _ (by decide) _⟩
  · intro m v h ht
    rw [(enrichMessage_getProp m).1, h]
    simp [jsOr, ht]
  · intro m v h ht
    rw [(enrichMessage_getProp m).2.1, h]
    simp [jsOr, ht]

/-- Counterexample to C4 as stated: in this `message_start` payload the
embedded message carries the field `role` with the (falsy) value `""`; the
claim says a field already present is never overwritten, but the rewrite
(which uses `||`) replaces it with `"assistant"` in the emitted payload. -/
theorem claim_c4_counterexample :
    jsGetProp (.obj [("id", .str "1"), ("role", .str "")]) "role" = some (.str "")
    ∧ enrichSseChunk
        "data: \x7b\"type\":\"message_start\",\"message\":\x7b\"id\":\"1\",\"role\":\"\"\x7d\x7d"
        none []
      = ("data: \x7b\"type\":\"message_start\",\"message\":\x7b\"id\":\"1\",\"role\":\"assistant\",\"type\":\"message\",\"stop_reason\":null,\"stop_sequence\":null\x7d\x7d",
         [])
    ∧ ("assistant" : String) ≠ "" := by
  exact ⟨rfl, rfl, by decide⟩

/-- Witness for C4 at concrete inputs: a missing `type` is defaulted, a
truthy present `role` is preserved, a present falsy `role` (`""`) and a
present falsy `type` (`null`) are replaced by the defaults, and a
`message_start` with a usage object and a precomputed count of 1000 has
`input_tokens` overwritten. -/
theorem claim_c4_witness :
    jsGetProp (enrichMessage (.obj [("id", .str "1"), ("role", .str "")])) "role"
      = some (.str "assistant")
    ∧ jsGetProp (enrichMessage (.obj [("type", .null)])) "type"
      = some (.str "message")
    ∧ jsGetProp (enrichMessage (.obj [("id", .str "1")])) "type" = some (.str "message")
    ∧ jsGetProp (enrichMessage (.obj [("type", .str "message"), ("role", .str "assistant")]))
        "role" = some (.str "assistant")
    ∧ enrichDataValue
        (.obj [("type", .str "message_start"),
               ("message", .obj [("usage",
                 .obj [("input_tokens", .num 5), ("output_tokens", .num 0)])])])
        (some 1000) []
      = (.replace ("data: " ++ jsonStringify (objSet
          (.obj [("type", .str "message_start"),
                 ("message", .obj [("usage",
                   .obj [("input_tokens", .num 5), ("output_tokens", .num 0)])])])
          "message"
          (objSet (enrichMessage (.obj [("usage",
              .obj [("input_tokens", .num 5), ("output_tokens", .num 0)])]))
            "usage"
            (.obj (insertField [("input_tokens", .num 5), ("output_tokens", .num 0)]
              "input_tokens" (.num 1000)))))), []) := by
  refine ⟨claim_c4.2.2.2.2.2.2.2.2.2.2.2.2 _ (.str "") rfl rfl,
    claim_c4.2.2.2.2.2.2.2.2.2.2.2.1 _ .null rfl rfl,
    claim_c4.1 _ rfl, claim_c4.2.2.2.1 _ _ rfl rfl, ?_⟩
  exact (claim_c4.2.2.2.2.2.2.2.2.2.1
    (.obj [("type", .str "message_start"),
           ("message", .obj [("usage",
             .obj [("input_tokens", .num 5), ("output_tokens", .num 0)])])])
    (.obj [("usage", .obj [("input_tokens", .num 5), ("output_tokens", .num 0)])])
    [("input_tokens", .num 5), ("output_tokens", .num 0)]
    1000 [] rfl rfl rfl rfl).1
